import Mathlib

/-!
Shallow embedding of the `webapp` views of the lab_61 storefront
(`src/source/webapp/views.py`): session basket manipulation
(`BasketChangeView.get`), basket aggregation, totals and checkout
(`BasketView`), order listing (`OrderListView.get_queryset`) and product
soft-deletion (`ProductDeleteView.delete`).

Products, orders and order lines are modelled as record types; the
persistence layer is a pair of lists; the session is a record of the two
optional keys the views use (`products`, `products_count`).  A Django 404
(`get_object_or_404` / `Product.objects.get` raising `DoesNotExist`) is
modelled as `Except.error ()`.
-/

namespace Webapp

/-- `webapp.models.Product`: id, name, category, price (decimal, modelled as
`Rat`), photo (opaque string), `in_order` purchasable flag. -/
structure Product where
  id : Nat
  name : String
  category : String
  price : Rat
  photo : String
  in_order : Bool
deriving Repr, DecidableEq

/-- `Product.objects.get(pk=pk)` / `get_object_or_404(Product, pk=pk)`:
lookup by primary key, no `in_order` filtering. -/
def productGet (catalog : List Product) (pk : Nat) : Option Product :=
  catalog.find? (fun p => p.id == pk)

/-- The two session keys touched by the basket views. -/
structure Session where
  products : Option (List Nat)
  products_count : Option Nat
deriving Repr, DecidableEq

/-- The `action` query parameter of `BasketChangeView.get`: `add` appends a
product reference, anything else removes one. -/
inductive BasketAction where
  | add (pk : Nat)
  | remove (pk : Nat)
deriving Repr, DecidableEq

/-- The removal loop of `BasketChangeView.get`: scan `products`, and on the
first element equal to `pk` call `products.remove(...)` (which deletes that
first occurrence) and `break`. -/
def removeFirst : List Nat → Nat → List Nat
  | [], _ => []
  | x :: xs, pk => if x == pk then xs else x :: removeFirst xs pk

/-- `BasketChangeView.get`: on `add`, 404 when the product does not exist,
append the reference only when `in_order`; otherwise remove the first
matching reference.  Both branches rewrite `session['products']` and
`session['products_count'] = len(products)`. -/
def basketChangeGet (catalog : List Product) (session : Session) (act : BasketAction) :
    Except Unit Session :=
  let ps := session.products.getD []
  match act with
  | .add pk =>
    match productGet catalog pk with
    | none => .error ()
    | some product =>
      let ps' := if product.in_order then ps ++ [pk] else ps
      .ok ⟨some ps', some ps'.length⟩
  | .remove pk =>
    let ps' := removeFirst ps pk
    .ok ⟨some ps', some ps'.length⟩

/-- One iteration of `BasketView._get_totals`: bump the entry for `pk`, or
append a fresh `(pk, 1)` entry (Python dicts preserve insertion order, so the
totals are an association list keyed by first occurrence). -/
def bumpOrAdd (totals : List (Nat × Nat)) (pk : Nat) : List (Nat × Nat) :=
  if totals.any (fun e => e.1 == pk) then
    totals.map (fun e => if e.1 == pk then (e.1, e.2 + 1) else e)
  else totals ++ [(pk, 1)]

/-- `BasketView._get_totals`: count occurrences of each product reference in
the session basket, in first-occurrence order. -/
def getTotals (products : List Nat) : List (Nat × Nat) :=
  products.foldl bumpOrAdd []

/-- One `{'product': ..., 'qty': ..., 'total': ...}` row built by
`BasketView._prepare_basket`. -/
structure BasketLine where
  product : Product
  qty : Nat
  total : Rat
deriving Repr, DecidableEq

/-- The loop of `BasketView._prepare_basket`: for each aggregated entry look
the product up (`Product.objects.get`, `DoesNotExist` aborts the whole
computation) and accumulate `price * qty` into the running grand total. -/
def prepareBasketAux (catalog : List Product) :
    List (Nat × Nat) → List BasketLine → Rat → Except Unit (List BasketLine × Rat)
  | [], basket, basket_total => .ok (basket, basket_total)
  | (pk, qty) :: rest, basket, basket_total =>
    match productGet catalog pk with
    | none => .error ()
    | some product =>
      prepareBasketAux catalog rest (basket ++ [⟨product, qty, product.price * qty⟩])
        (basket_total + product.price * qty)

/-- `BasketView._prepare_basket` (= the spec's `ComputeTotals`). -/
def prepareBasket (catalog : List Product) (ps : List Nat) :
    Except Unit (List BasketLine × Rat) :=
  prepareBasketAux catalog (getTotals ps) [] 0

/-- `webapp.models.Order`: owner is nullable (`user`), contact fields,
status, creation timestamp. -/
structure Order where
  id : Nat
  user : Option Nat
  first_name : String
  last_name : String
  phone : String
  email : String
  status : String
  created_at : Nat
deriving Repr, DecidableEq

/-- `webapp.models.OrderProduct`: a line linking an order to a product with a
quantity. -/
structure OrderProduct where
  order_id : Nat
  product_id : Nat
  amount : Nat
deriving Repr, DecidableEq

/-- The persisted rows the checkout path writes. -/
structure Db where
  orders : List Order
  order_products : List OrderProduct
deriving Repr, DecidableEq

/-- Outcome of a `BasketView` POST: success redirect, or the form re-rendered
with validation errors. -/
inductive CheckoutOutcome where
  | success
  | validationError
deriving Repr, DecidableEq

/-- `BasketView._save_order_products`: one `OrderProduct.objects.create` per
aggregated entry. -/
def saveOrderProducts (orderId : Nat) (ps : List Nat) : List OrderProduct :=
  (getTotals ps).map (fun e => ⟨orderId, e.1, e.2⟩)

/-- A `BasketView` POST.  When the form fails validation, generic Django
`CreateView` dispatch calls `form_invalid` and nothing is written.  When it
validates, `form_valid` first rejects an empty basket (adding a form error),
otherwise creates the order, creates the aggregated order lines
(`_save_order_products`) and pops both basket keys (`_clean_basket`). -/
def basketViewPost (db : Db) (session : Session) (formOk : Bool) (newOrder : Order) :
    Db × Session × CheckoutOutcome :=
  if formOk = false then (db, session, .validationError)
  else
    let ps := session.products.getD []
    if ps.length == 0 then (db, session, .validationError)
    else
      ({ orders := db.orders ++ [newOrder],
         order_products := db.order_products ++ saveOrderProducts newOrder.id ps },
       ⟨none, none⟩, .success)

/-- A request user as the views see one: identity plus the
`webapp.view_order` permission bit. -/
structure WebUser where
  id : Nat
  canViewAllOrders : Bool
deriving Repr, DecidableEq

/-- Insert an order into a list kept in descending `created_at` order. -/
def insertByCreatedDesc (o : Order) : List Order → List Order
  | [] => [o]
  | x :: xs =>
    if x.created_at ≤ o.created_at then o :: x :: xs else x :: insertByCreatedDesc o xs

/-- `.order_by('-created_at')`: sort by creation time, newest first. -/
def orderByCreatedDesc (orders : List Order) : List Order :=
  orders.foldr insertByCreatedDesc []

/-- Modelled from the spec: `self.request.user.orders.all()` — the reverse
accessor of `Order.user` is declared in `webapp/models.py`, which is not part
of the provided sources.  Spec §4.3: ListOrders for a non-privileged user
"returns only orders owned by that user", as an "ordered sequence of Order
(by created_at, descending)". -/
def userOrders (orders : List Order) (u : WebUser) : List Order :=
  orderByCreatedDesc (orders.filter (fun o => o.user == some u.id))

/-- `OrderListView.get_queryset`: all orders (newest first) for a user with
`webapp.view_order`, otherwise the user's own orders. -/
def orderListQueryset (orders : List Order) (u : WebUser) : List Order :=
  if u.canViewAllOrders then orderByCreatedDesc orders else userOrders orders u

/-- `ProductDeleteView.delete`: 404 when the product does not exist,
otherwise clear its `in_order` flag and save — the row is kept. -/
def productDeleteView (catalog : List Product) (pk : Nat) : Except Unit (List Product) :=
  match productGet catalog pk with
  | none => .error ()
  | some _ => .ok (catalog.map (fun q => if q.id == pk then { q with in_order := false } else q))

/-- Run a sequence of `BasketChangeView` requests, aborting on a 404. -/
def applyBasketOps (catalog : List Product) : Session → List BasketAction → Except Unit Session
  | s, [] => .ok s
  | s, act :: rest =>
    match basketChangeGet catalog s act with
    | .error e => .error e
    | .ok s' => applyBasketOps catalog s' rest

/-- The quantity the amended C3 predicts for `pk`: fold over the operation
sequence, `add pk` increments, `remove pk` decrements truncating at zero
(`Nat` subtraction), other products' operations are ignored. -/
def specQuantityFoldFrom (n : Nat) (pk : Nat) (ops : List BasketAction) : Nat :=
  ops.foldl
    (fun m act =>
      match act with
      | .add k => if k == pk then m + 1 else m
      | .remove k => if k == pk then m - 1 else m) n

/-- The amended C3 quantity starting from an empty basket. -/
def specQuantityFold (pk : Nat) (ops : List BasketAction) : Nat :=
  specQuantityFoldFrom 0 pk ops

/-- An action is accepted without a 404 and without being a silent no-op:
removals always are; an addition needs an existing, purchasable product. -/
def actionOk (catalog : List Product) : BasketAction → Bool
  | .add pk =>
    match productGet catalog pk with
    | none => false
    | some p => p.in_order
  | .remove _ => true

/-- Session states reachable through the basket views from a fresh session. -/
inductive SessionReachable (catalog : List Product) : Session → Prop where
  | init : SessionReachable catalog ⟨none, none⟩
  | change {s s' : Session} {act : BasketAction} :
      SessionReachable catalog s → basketChangeGet catalog s act = .ok s' →
      SessionReachable catalog s'
  | checkout {s s' : Session} {db db' : Db} {formOk : Bool} {o : Order}
      {out : CheckoutOutcome} :
      SessionReachable catalog s → basketViewPost db s formOk o = (db', s', out) →
      SessionReachable catalog s'

/-- Demonstration catalog used by concrete witnesses. -/
def demoCatalog : List Product :=
  [⟨7, "pizza", "food", 10, "p7.png", true⟩,
   ⟨3, "cola", "drink", 5, "p3.png", true⟩,
   ⟨9, "retired", "food", 4, "p9.png", false⟩]

/-! ### Aggregation lemmas: `getTotals` counts occurrences -/

/-- The totals entries carrying key `k`. -/
def keyFilter (t : List (Nat × Nat)) (k : Nat) : List (Nat × Nat) :=
  t.filter (fun e => e.1 == k)

/-- The quantity recorded for key `k` (0 when absent). -/
def keyCount (t : List (Nat × Nat)) (k : Nat) : Nat :=
  ((keyFilter t k).map (fun e => e.2)).sum

/-- Well-formed totals: at most one entry per key, and it carries its key. -/
def TotalsWf (t : List (Nat × Nat)) : Prop :=
  ∀ k, keyFilter t k = [] ∨ ∃ m, keyFilter t k = [(k, m)]

theorem keyFilter_nil (k : Nat) : keyFilter [] k = [] := rfl

theorem keyFilter_append (t t' : List (Nat × Nat)) (k : Nat) :
    keyFilter (t ++ t') k = keyFilter t k ++ keyFilter t' k :=
  List.filter_append _ _

theorem keyFilter_map_bump (t : List (Nat × Nat)) (pk k : Nat) :
    keyFilter (t.map (fun e => if e.1 == pk then (e.1, e.2 + 1) else e)) k
      = (keyFilter t k).map (fun e => if e.1 == pk then (e.1, e.2 + 1) else e) := by
  induction t with
  | nil => rfl
  | cons e t ih =>
    have h1 : ((if e.1 == pk then (e.1, e.2 + 1) else e)).1 = e.1 := by
      by_cases h : e.1 == pk <;> simp [h]
    by_cases hk : e.1 = k
    · simp only [keyFilter, List.map_cons, List.filter_cons, h1] at *
      simp [hk] at *
      exact ih
    · simp only [keyFilter, List.map_cons, List.filter_cons, h1] at *
      simp [hk] at *
      exact ih

theorem keyFilter_mem_key {t : List (Nat × Nat)} {k : Nat} {e : Nat × Nat}
    (h : e ∈ keyFilter t k) : e.1 = k := by
  have := List.mem_filter.mp h
  simpa using this.2

theorem bumpOrAdd_keyFilter_ne (t : List (Nat × Nat)) (pk k : Nat) (h : ¬ k = pk) :
    keyFilter (bumpOrAdd t pk) k = keyFilter t k := by
  unfold bumpOrAdd
  by_cases hany : t.any (fun e => e.1 == pk)
  · rw [if_pos hany, keyFilter_map_bump]
    have : ∀ e ∈ keyFilter t k, (if e.1 == pk then (e.1, e.2 + 1) else e) = e := by
      intro e he
      have hek := keyFilter_mem_key he
      have : ¬ (e.1 == pk) = true := by simp [hek, h]
      simp [this]
    calc (keyFilter t k).map (fun e => if e.1 == pk then (e.1, e.2 + 1) else e)
        = (keyFilter t k).map id := List.map_congr_left (by simpa using this)
      _ = keyFilter t k := List.map_id _
  · rw [if_neg hany, keyFilter_append]
    have hpk : ¬ pk = k := fun hc => h hc.symm
    have : keyFilter [(pk, 1)] k = [] := by simp [keyFilter, hpk]
    rw [this, List.append_nil]

theorem bumpOrAdd_keyFilter_self_absent (t : List (Nat × Nat)) (pk : Nat)
    (h : keyFilter t pk = []) :
    keyFilter (bumpOrAdd t pk) pk = [(pk, 1)] := by
  unfold bumpOrAdd
  have hany : ¬ t.any (fun e => e.1 == pk) = true := by
    intro hc
    rcases List.any_eq_true.mp hc with ⟨e, he, hek⟩
    have : e ∈ keyFilter t pk := List.mem_filter.mpr ⟨he, hek⟩
    rw [h] at this
    exact absurd this (List.not_mem_nil e)
  rw [if_neg hany, keyFilter_append, h]
  simp [keyFilter]

theorem bumpOrAdd_keyFilter_self_present (t : List (Nat × Nat)) (pk m : Nat)
    (h : keyFilter t pk = [(pk, m)]) :
    keyFilter (bumpOrAdd t pk) pk = [(pk, m + 1)] := by
  unfold bumpOrAdd
  have hmem : (pk, m) ∈ keyFilter t pk := by rw [h]; exact List.mem_singleton.mpr rfl
  have hany : t.any (fun e => e.1 == pk) = true := by
    rcases List.mem_filter.mp hmem with ⟨ht, hp⟩
    exact List.any_eq_true.mpr ⟨(pk, m), ht, hp⟩
  rw [if_pos hany, keyFilter_map_bump, h]
  simp

theorem bumpOrAdd_wf {t : List (Nat × Nat)} (h : TotalsWf t) (pk : Nat) :
    TotalsWf (bumpOrAdd t pk) := by
  intro k
  by_cases hk : k = pk
  · subst hk
    rcases h k with h0 | ⟨m, hm⟩
    · exact Or.inr ⟨1, bumpOrAdd_keyFilter_self_absent t k h0⟩
    · exact Or.inr ⟨m + 1, bumpOrAdd_keyFilter_self_present t k m hm⟩
  · rw [bumpOrAdd_keyFilter_ne t pk k hk]
    exact h k

theorem bumpOrAdd_keyCount {t : List (Nat × Nat)} (h : TotalsWf t) (pk k : Nat) :
    keyCount (bumpOrAdd t pk) k = keyCount t k + (if k = pk then 1 else 0) := by
  by_cases hk : k = pk
  · subst hk
    rcases h k with h0 | ⟨m, hm⟩
    · rw [keyCount, bumpOrAdd_keyFilter_self_absent t k h0, keyCount, h0]
      simp
    · rw [keyCount, bumpOrAdd_keyFilter_self_present t k m hm, keyCount, hm]
      simp
  · rw [keyCount, bumpOrAdd_keyFilter_ne t pk k hk, if_neg hk, keyCount]
    simp

theorem foldl_bumpOrAdd_keyFilter (ps : List Nat) :
    ∀ (t : List (Nat × Nat)), TotalsWf t → ∀ k,
      keyFilter (List.foldl bumpOrAdd t ps) k =
        if keyFilter t k = [] ∧ k ∉ ps then []
        else [(k, keyCount t k + ps.count k)] := by
  induction ps with
  | nil =>
    intro t hwf k
    rcases hwf k with h0 | ⟨m, hm⟩
    · simp [h0]
    · have : ¬ (keyFilter t k = [] ∧ k ∉ ([] : List Nat)) := by simp [hm]
      rw [List.foldl_nil, if_neg this, hm, keyCount, hm]
      simp
  | cons pk rest ih =>
    intro t hwf k
    rw [List.foldl_cons, ih (bumpOrAdd t pk) (bumpOrAdd_wf hwf pk) k]
    by_cases hk : k = pk
    · subst hk
      have hne : keyFilter (bumpOrAdd t k) k ≠ [] := by
        rcases hwf k with h0 | ⟨m, hm⟩
        · rw [bumpOrAdd_keyFilter_self_absent t k h0]; simp
        · rw [bumpOrAdd_keyFilter_self_present t k m hm]; simp
      have hmem : ¬ (keyFilter t k = [] ∧ k ∉ (k :: rest)) := by simp
      rw [if_neg (by simp [hne]), if_neg hmem, bumpOrAdd_keyCount hwf k k]
      have hc1 : (k :: rest).count k = rest.count k + 1 := by simp [List.count_cons]
      rw [hc1]
      have hc2 : keyCount t k + (if k = k then 1 else 0) + rest.count k
          = keyCount t k + (rest.count k + 1) := by
        rw [if_pos rfl]
        omega
      rw [hc2]
    · rw [bumpOrAdd_keyFilter_ne t pk k hk, bumpOrAdd_keyCount hwf pk k, if_neg hk]
      have hpk : ¬ pk = k := fun hc => hk hc.symm
      have hcnt : (pk :: rest).count k = rest.count k := by simp [List.count_cons, hpk]
      have hmem : (keyFilter t k = [] ∧ k ∉ (pk :: rest)) ↔ (keyFilter t k = [] ∧ k ∉ rest) := by
        constructor
        · rintro ⟨h1, h2⟩
          exact ⟨h1, fun hc => h2 (List.mem_cons_of_mem pk hc)⟩
        · rintro ⟨h1, h2⟩
          refine ⟨h1, fun hc => ?_⟩
          rcases List.mem_cons.mp hc with h | h
          · exact hk h
          · exact h2 h
      rw [hcnt]
      by_cases hc : keyFilter t k = [] ∧ k ∉ rest
      · rw [if_pos hc, if_pos (hmem.mpr hc)]
      · rw [if_neg hc, if_neg (fun h => hc (hmem.mp h))]
        simp

theorem getTotals_keyFilter (ps : List Nat) (k : Nat) :
    keyFilter (getTotals ps) k = if k ∈ ps then [(k, ps.count k)] else [] := by
  have hwf : TotalsWf [] := fun k => Or.inl rfl
  rw [getTotals, foldl_bumpOrAdd_keyFilter ps [] hwf k]
  by_cases h : k ∈ ps
  · rw [if_neg (by simp [h]), if_pos h]
    simp [keyCount, keyFilter]
  · rw [if_pos (by simp [h, keyFilter]), if_neg h]

theorem getTotals_mem {ps : List Nat} {e : Nat × Nat} (h : e ∈ getTotals ps) :
    e.1 ∈ ps ∧ e = (e.1, ps.count e.1) := by
  have hf : e ∈ keyFilter (getTotals ps) e.1 :=
    List.mem_filter.mpr ⟨h, by simp⟩
  rw [getTotals_keyFilter ps e.1] at hf
  by_cases hm : e.1 ∈ ps
  · rw [if_pos hm] at hf
    exact ⟨hm, List.mem_singleton.mp hf⟩
  · rw [if_neg hm] at hf
    exact absurd hf (List.not_mem_nil e)

/-- Order used by concrete witnesses. -/
def demoOrder : Order :=
  ⟨1, some 5, "Ada", "L", "555-1234", "ada@example.com", "new", 100⟩

/-- C1: submitting a valid order form on a non-empty basket appends exactly
one order, appends exactly one aggregated line per distinct referenced
product (`amount` = its multiplicity in the basket, linked to the new
order), and empties both session basket keys. -/
theorem checkout_nonempty_creates_order_and_lines
    (db : Db) (session : Session) (o : Order) (ps : List Nat)
    (hps : session.products = some ps) (hne : ps ≠ []) :
    basketViewPost db session true o =
      ({ orders := db.orders ++ [o],
         order_products := db.order_products ++ saveOrderProducts o.id ps },
       ⟨none, none⟩, .success)
    ∧ (∀ r ∈ saveOrderProducts o.id ps, r.order_id = o.id)
    ∧ (∀ pk, (saveOrderProducts o.id ps).filter (fun r => r.product_id == pk)
        = if pk ∈ ps then [⟨o.id, pk, ps.count pk⟩] else []) := by
  refine ⟨?_, ?_, ?_⟩
  · rw [basketViewPost]
    simp [hps, hne]
  · intro r hr
    rcases List.mem_map.mp hr with ⟨e, _, rfl⟩
    rfl
  · intro pk
    have hstep : (saveOrderProducts o.id ps).filter (fun r => r.product_id == pk)
        = (keyFilter (getTotals ps) pk).map
            (fun e => (⟨o.id, e.1, e.2⟩ : OrderProduct)) := by
      rw [saveOrderProducts, List.filter_map]
      rfl
    rw [hstep, getTotals_keyFilter ps pk]
    by_cases hm : pk ∈ ps
    · rw [if_pos hm, if_pos hm]
      rfl
    · rw [if_neg hm, if_neg hm]
      rfl

/-- Witness for C1 at the spec's worked example basket `[7, 7, 3]`. -/
theorem checkout_nonempty_creates_order_and_lines_witness :
    basketViewPost ⟨[], []⟩ ⟨some [7, 7, 3], some 3⟩ true demoOrder =
      (⟨[demoOrder], [⟨1, 7, 2⟩, ⟨1, 3, 1⟩]⟩, ⟨none, none⟩, CheckoutOutcome.success) := by
  have h := checkout_nonempty_creates_order_and_lines ⟨[], []⟩ ⟨some [7, 7, 3], some 3⟩
    demoOrder [7, 7, 3] rfl (by decide)
  rw [h.1]
  rfl

/-- C2: a checkout attempt with an empty basket (whatever the form's own
validation outcome) ends in a validation error and writes nothing: the
database and the session are untouched. -/
theorem checkout_empty_basket_validation_error
    (db : Db) (session : Session) (formOk : Bool) (o : Order)
    (h : session.products.getD [] = []) :
    basketViewPost db session formOk o = (db, session, .validationError) := by
  rw [basketViewPost]
  cases formOk
  · simp
  · simp [h]

/-- Witness for C2: a fresh session has an empty basket. -/
theorem checkout_empty_basket_validation_error_witness :
    basketViewPost ⟨[], []⟩ ⟨none, none⟩ true demoOrder =
      (⟨[], []⟩, ⟨none, none⟩, CheckoutOutcome.validationError) :=
  checkout_empty_basket_validation_error ⟨[], []⟩ ⟨none, none⟩ true demoOrder rfl

/-- C8: when the order form fails validation, `form_valid` is never entered:
no order, no order lines, and the basket keys survive untouched. -/
theorem checkout_invalid_form_no_effect (db : Db) (session : Session) (o : Order) :
    basketViewPost db session false o = (db, session, .validationError) := by
  rw [basketViewPost]
  simp

/-! ### Basket add/remove sequences (C3) -/

theorem removeFirst_count (ps : List Nat) (pk k : Nat) :
    (removeFirst ps pk).count k = if pk = k then ps.count k - 1 else ps.count k := by
  induction ps with
  | nil => simp [removeFirst]
  | cons x xs ih =>
    by_cases hx : x = pk
    · subst hx
      rw [removeFirst, if_pos (by simp)]
      by_cases hk : x = k
      · subst hk
        rw [if_pos rfl]
        simp [List.count_cons]
      · rw [if_neg hk]
        simp [List.count_cons, hk]
    · rw [removeFirst, if_neg (by simpa using hx)]
      by_cases hk : pk = k
      · subst hk
        have hxk : ¬ x = pk := hx
        rw [if_pos rfl] at ih ⊢
        simp [List.count_cons, hxk, ih]
      · rw [if_neg hk] at ih ⊢
        simp [List.count_cons, ih]

theorem count_append_single (ps : List Nat) (pk k : Nat) :
    (ps ++ [pk]).count k = ps.count k + if pk = k then 1 else 0 := by
  by_cases h : pk = k <;> simp [List.count_append, List.count_cons, h]

theorem specQuantityFoldFrom_add (n k j : Nat) (ops : List BasketAction) :
    specQuantityFoldFrom n k (.add j :: ops)
      = specQuantityFoldFrom (if j == k then n + 1 else n) k ops := rfl

theorem specQuantityFoldFrom_remove (n k j : Nat) (ops : List BasketAction) :
    specQuantityFoldFrom n k (.remove j :: ops)
      = specQuantityFoldFrom (if j == k then n - 1 else n) k ops := rfl

theorem applyBasketOps_cons_ok {catalog : List Product} {s s₁ : Session}
    {act : BasketAction} {ops : List BasketAction}
    (h : basketChangeGet catalog s act = .ok s₁) :
    applyBasketOps catalog s (act :: ops) = applyBasketOps catalog s₁ ops := by
  rw [applyBasketOps, h]

theorem applyBasketOps_count (catalog : List Product) (ops : List BasketAction) :
    ∀ s : Session, ops.all (actionOk catalog) = true →
      ∃ s', applyBasketOps catalog s ops = .ok s' ∧
        ∀ pk, (s'.products.getD []).count pk =
          specQuantityFoldFrom ((s.products.getD []).count pk) pk ops := by
  induction ops with
  | nil =>
    intro s _
    exact ⟨s, rfl, fun pk => rfl⟩
  | cons act rest ih =>
    intro s hall
    rw [List.all_cons, Bool.and_eq_true] at hall
    obtain ⟨hok, hrest⟩ := hall
    cases act with
    | add pk =>
      cases hpg : productGet catalog pk with
      | none =>
        rw [actionOk, hpg] at hok
        exact absurd hok (by simp)
      | some p =>
        have hio : p.in_order = true := by rw [actionOk, hpg] at hok; exact hok
        obtain ⟨s', hrun, hcnt⟩ :=
          ih ⟨some (s.products.getD [] ++ [pk]),
              some (s.products.getD [] ++ [pk]).length⟩ hrest
        have hbc : basketChangeGet catalog s (.add pk)
            = .ok ⟨some (s.products.getD [] ++ [pk]),
                   some (s.products.getD [] ++ [pk]).length⟩ := by
          rw [basketChangeGet]
          simp [hpg, hio]
        refine ⟨s', ?_, ?_⟩
        · rw [applyBasketOps_cons_ok hbc]
          exact hrun
        · intro k
          rw [hcnt k, specQuantityFoldFrom_add]
          congr 1
          simp only [Option.getD_some]
          rw [count_append_single]
          by_cases h : pk = k <;> simp [h]
    | remove pk =>
      have hbc : basketChangeGet catalog s (.remove pk)
          = .ok ⟨some (removeFirst (s.products.getD []) pk),
                 some (removeFirst (s.products.getD []) pk).length⟩ := rfl
      obtain ⟨s', hrun, hcnt⟩ :=
        ih ⟨some (removeFirst (s.products.getD []) pk),
            some (removeFirst (s.products.getD []) pk).length⟩ hrest
      refine ⟨s', ?_, ?_⟩
      · rw [applyBasketOps_cons_ok hbc]
        exact hrun
      · intro k
        rw [hcnt k, specQuantityFoldFrom_remove]
        congr 1
        simp only [Option.getD_some]
        rw [removeFirst_count]
        by_cases h : pk = k <;> simp [h]

/-- C3 counterexample: on the run `[add 7, remove 7, remove 7, add 7]` over an
initially empty basket (product 7 exists and is purchasable), there are 2 Add
calls and 2 Remove calls for product 7, so the claimed formula gives
`max (2 - 2) 0 = 0`, yet the final aggregated quantity of product 7 is 1:
the second Remove hit an already-empty basket and was a no-op rather than a
debt against the later Add. -/
theorem basket_quantity_formula_counterexample :
    applyBasketOps demoCatalog ⟨none, none⟩
        [.add 7, .remove 7, .remove 7, .add 7] = .ok ⟨some [7], some 1⟩
    ∧ ([BasketAction.add 7, .remove 7, .remove 7, .add 7].countP
        (fun a => a == .add 7) = 2)
    ∧ ([BasketAction.add 7, .remove 7, .remove 7, .add 7].countP
        (fun a => a == .remove 7) = 2)
    ∧ ([7] : List Nat).count 7 ≠ max (2 - 2) 0 :=
  ⟨rfl, rfl, rfl, by decide⟩

/-- C3 (amended): for every sequence of Add/Remove operations on an initially
empty basket in which every Add refers to an existing, purchasable product,
the aggregated quantity of each product equals the left fold of the sequence
that increments on Add and decrements truncating at zero on Remove (a Remove
on a product whose quantity is already zero is a no-op, so a quantity is
never made negative, but the result can exceed `#Add - #Remove` floored at
zero). -/
theorem basket_quantity_clamped_fold (catalog : List Product) (ops : List BasketAction)
    (hall : ops.all (actionOk catalog) = true) :
    ∃ s', applyBasketOps catalog ⟨none, none⟩ ops = .ok s' ∧
      ∀ pk, (s'.products.getD []).count pk = specQuantityFold pk ops :=
  applyBasketOps_count catalog ops ⟨none, none⟩ hall

/-- Witness for the amended C3 on a concrete run. -/
theorem basket_quantity_clamped_fold_witness :
    ∃ s', applyBasketOps demoCatalog ⟨none, none⟩ [.add 7, .add 7, .add 3, .remove 7] = .ok s'
      ∧ ∀ pk, (s'.products.getD []).count pk
          = specQuantityFold pk [.add 7, .add 7, .add 3, .remove 7] :=
  basket_quantity_clamped_fold demoCatalog [.add 7, .add 7, .add 3, .remove 7] (by decide)

/-! ### Totals computation (C5, C6) -/

/-- The live price the basket page uses for a referenced product. -/
def priceOf (catalog : List Product) (pk : Nat) : Rat :=
  ((productGet catalog pk).map (fun p => p.price)).getD 0

theorem prepareBasketAux_ok (catalog : List Product) (entries : List (Nat × Nat))
    (hall : ∀ e ∈ entries, (productGet catalog e.1).isSome = true) :
    ∀ (acc : List BasketLine) (t : Rat), ∃ b,
      prepareBasketAux catalog entries acc t =
        .ok (b, t + (entries.map (fun e => priceOf catalog e.1 * e.2)).sum) := by
  induction entries with
  | nil =>
    intro acc t
    refine ⟨acc, ?_⟩
    simp [prepareBasketAux]
  | cons e rest ih =>
    intro acc t
    obtain ⟨pk, qty⟩ := e
    have hhead : (productGet catalog pk).isSome = true := hall (pk, qty) (List.mem_cons_self _ _)
    obtain ⟨p, hp⟩ := Option.isSome_iff_exists.mp hhead
    have hrest : ∀ e ∈ rest, (productGet catalog e.1).isSome = true :=
      fun e he => hall e (List.mem_cons_of_mem _ he)
    obtain ⟨b, hb⟩ := ih hrest (acc ++ [⟨p, qty, p.price * qty⟩]) (t + p.price * qty)
    refine ⟨b, ?_⟩
    have hstep : prepareBasketAux catalog ((pk, qty) :: rest) acc t
        = prepareBasketAux catalog rest (acc ++ [⟨p, qty, p.price * qty⟩])
            (t + p.price * qty) := by
      rw [prepareBasketAux, hp]
    rw [hstep, hb]
    have hprice : priceOf catalog pk = p.price := by rw [priceOf, hp]; rfl
    simp [hprice, add_assoc]

theorem prepareBasketAux_error (catalog : List Product) (entries : List (Nat × Nat))
    (hmiss : ∃ e ∈ entries, productGet catalog e.1 = none) :
    ∀ (acc : List BasketLine) (t : Rat),
      prepareBasketAux catalog entries acc t = .error () := by
  induction entries with
  | nil =>
    obtain ⟨e, he, _⟩ := hmiss
    exact absurd he (List.not_mem_nil e)
  | cons e rest ih =>
    intro acc t
    obtain ⟨pk, qty⟩ := e
    cases hp : productGet catalog pk with
    | none => rw [prepareBasketAux, hp]
    | some p =>
      obtain ⟨e', he', hmiss'⟩ := hmiss
      rcases List.mem_cons.mp he' with rfl | he'
      · rw [hp] at hmiss'
        exact absurd hmiss' (by simp)
      · rw [prepareBasketAux, hp]
        exact ih ⟨e', he', hmiss'⟩ _ _

theorem getTotals_mem_of_mem {ps : List Nat} {pk : Nat} (h : pk ∈ ps) :
    (pk, ps.count pk) ∈ getTotals ps := by
  have hkf := getTotals_keyFilter ps pk
  rw [if_pos h] at hkf
  have hmem : (pk, ps.count pk) ∈ keyFilter (getTotals ps) pk := by
    rw [hkf]
    exact List.mem_singleton.mpr rfl
  exact (List.mem_filter.mp hmem).1

/-- C5: when every product referenced in the basket still exists, the basket
page computes, and its grand total is the sum over the aggregated entries of
the product's live price times the aggregated quantity. -/
theorem prepare_basket_grand_total (catalog : List Product) (ps : List Nat)
    (hall : ∀ pk ∈ ps, (productGet catalog pk).isSome = true) :
    ∃ b, prepareBasket catalog ps =
      .ok (b, ((getTotals ps).map (fun e => priceOf catalog e.1 * e.2)).sum) := by
  have hent : ∀ e ∈ getTotals ps, (productGet catalog e.1).isSome = true := by
    intro e he
    exact hall e.1 (getTotals_mem he).1
  obtain ⟨b, hb⟩ := prepareBasketAux_ok catalog (getTotals ps) hent [] 0
  refine ⟨b, ?_⟩
  rw [prepareBasket, hb, zero_add]

/-- Witness for C5 on the spec's worked example: basket `[7, 7, 3]`, prices
10 and 5, grand total 25. -/
theorem prepare_basket_grand_total_witness :
    (∃ b, prepareBasket demoCatalog [7, 7, 3] =
      .ok (b, ((getTotals [7, 7, 3]).map
        (fun e => priceOf demoCatalog e.1 * e.2)).sum))
    ∧ ((getTotals [7, 7, 3]).map (fun e => priceOf demoCatalog e.1 * e.2)).sum = 25 :=
  ⟨prepare_basket_grand_total demoCatalog [7, 7, 3] (by decide),
   by norm_num [getTotals, bumpOrAdd, priceOf, productGet, demoCatalog]⟩

/-- The demonstration catalog after `ProductDeleteView` soft-deletes
product 7. -/
def demoCatalogSoft : List Product :=
  [⟨7, "pizza", "food", 10, "p7.png", false⟩,
   ⟨3, "cola", "drink", 5, "p3.png", true⟩,
   ⟨9, "retired", "food", 4, "p9.png", false⟩]

/-- C6 counterexample: product 7 is soft-deleted (via the delete view) after
the basket `[7, 7]` was filled, yet `_prepare_basket` does not fail: the
`Product.objects.get` lookup ignores `in_order`, so the computation succeeds
and still shows the soft-deleted product. -/
theorem prepare_basket_soft_deleted_counterexample :
    productDeleteView demoCatalog 7 = .ok demoCatalogSoft
    ∧ (∃ p, productGet demoCatalogSoft 7 = some p ∧ p.in_order = false)
    ∧ prepareBasket demoCatalogSoft [7, 7]
        = .ok ([⟨⟨7, "pizza", "food", 10, "p7.png", false⟩, 2, 20⟩], 20)
    ∧ prepareBasket demoCatalogSoft [7, 7] ≠ .error () := by
  have heval : prepareBasket demoCatalogSoft [7, 7]
      = .ok ([⟨⟨7, "pizza", "food", 10, "p7.png", false⟩, 2, 20⟩], 20) := by
    norm_num [prepareBasket, prepareBasketAux, getTotals, bumpOrAdd, productGet,
      demoCatalogSoft]
  refine ⟨rfl, ⟨⟨7, "pizza", "food", 10, "p7.png", false⟩, rfl, rfl⟩, heval, ?_⟩
  rw [heval]
  intro h
  exact Except.noConfusion h

/-- C6 (amended): `_prepare_basket` aborts with a propagated not-found error
exactly when some referenced product's row no longer exists (a hard delete);
a soft-deleted product (`in_order = false`, row retained) is still looked up
successfully and the computation proceeds. -/
theorem prepare_basket_error_iff_missing (catalog : List Product) (ps : List Nat) :
    prepareBasket catalog ps = .error () ↔ ∃ pk ∈ ps, productGet catalog pk = none := by
  constructor
  · intro herr
    by_contra hno
    push_neg at hno
    have hall : ∀ pk ∈ ps, (productGet catalog pk).isSome = true := by
      intro pk hpk
      exact Option.ne_none_iff_isSome.mp (hno pk hpk)
    obtain ⟨b, hb⟩ := prepareBasketAux_ok catalog (getTotals ps)
      (fun e he => hall e.1 (getTotals_mem he).1) [] 0
    rw [prepareBasket, hb] at herr
    exact Except.noConfusion herr
  · rintro ⟨pk, hpk, hmiss⟩
    have hmem : ((pk, ps.count pk) : Nat × Nat) ∈ getTotals ps := getTotals_mem_of_mem hpk
    exact prepareBasketAux_error catalog (getTotals ps) ⟨(pk, ps.count pk), hmem, hmiss⟩ [] 0

/-- Witness for the amended C6: with product 7 hard-deleted from the catalog,
the basket `[7, 3]` fails to display. -/
theorem prepare_basket_error_iff_missing_witness :
    prepareBasket [⟨3, "cola", "drink", 5, "p3.png", true⟩] [7, 3] = .error () :=
  (prepare_basket_error_iff_missing [⟨3, "cola", "drink", 5, "p3.png", true⟩] [7, 3]).mpr
    ⟨7, by decide, rfl⟩

/-! ### Basket add semantics (C7) -/

/-- C7: `BasketChangeView` on `add` resolves the product first
(`get_object_or_404`), so a missing product propagates a 404 before the
purchasability check; an existing product with `in_order = false` leaves the
reference list unchanged; an existing purchasable product gets exactly one
reference appended. -/
theorem basket_add_existence_then_purchasable (catalog : List Product) (s : Session)
    (pk : Nat) :
    (productGet catalog pk = none → basketChangeGet catalog s (.add pk) = .error ())
    ∧ (∀ p, productGet catalog pk = some p → p.in_order = false →
        basketChangeGet catalog s (.add pk)
          = .ok ⟨some (s.products.getD []), some (s.products.getD []).length⟩)
    ∧ (∀ p, productGet catalog pk = some p → p.in_order = true →
        basketChangeGet catalog s (.add pk)
          = .ok ⟨some (s.products.getD [] ++ [pk]),
                 some (s.products.getD [] ++ [pk]).length⟩) := by
  refine ⟨?_, ?_, ?_⟩
  · intro h
    rw [basketChangeGet]
    simp [h]
  · intro p hp hio
    rw [basketChangeGet]
    simp [hp, hio]
  · intro p hp hio
    rw [basketChangeGet]
    simp [hp, hio]

/-- Witness for C7: missing product 5 is a 404, soft-deleted product 9 is a
no-op, live product 7 is appended once. -/
theorem basket_add_existence_then_purchasable_witness :
    basketChangeGet demoCatalog ⟨some [3], some 1⟩ (.add 5) = .error ()
    ∧ basketChangeGet demoCatalog ⟨some [3], some 1⟩ (.add 9) = .ok ⟨some [3], some 1⟩
    ∧ basketChangeGet demoCatalog ⟨some [3], some 1⟩ (.add 7) = .ok ⟨some [3, 7], some 2⟩ :=
  ⟨(basket_add_existence_then_purchasable demoCatalog ⟨some [3], some 1⟩ 5).1 rfl,
   (basket_add_existence_then_purchasable demoCatalog ⟨some [3], some 1⟩ 9).2.1
     ⟨9, "retired", "food", 4, "p9.png", false⟩ rfl rfl,
   (basket_add_existence_then_purchasable demoCatalog ⟨some [3], some 1⟩ 7).2.2
     ⟨7, "pizza", "food", 10, "p7.png", true⟩ rfl rfl⟩

/-! ### Order listing (C4) -/

theorem mem_insertByCreatedDesc {o a : Order} {l : List Order} :
    a ∈ insertByCreatedDesc o l ↔ a = o ∨ a ∈ l := by
  induction l with
  | nil => simp [insertByCreatedDesc]
  | cons x xs ih =>
    rw [insertByCreatedDesc]
    by_cases h : x.created_at ≤ o.created_at
    · simp [h]
    · rw [if_neg h]
      simp only [List.mem_cons, ih]
      tauto

theorem pairwise_insertByCreatedDesc {o : Order} {l : List Order}
    (h : l.Pairwise (fun a b => b.created_at ≤ a.created_at)) :
    (insertByCreatedDesc o l).Pairwise (fun a b => b.created_at ≤ a.created_at) := by
  induction l with
  | nil => simp [insertByCreatedDesc]
  | cons x xs ih =>
    rw [List.pairwise_cons] at h
    obtain ⟨hx, hxs⟩ := h
    rw [insertByCreatedDesc]
    by_cases hc : x.created_at ≤ o.created_at
    · rw [if_pos hc]
      refine List.Pairwise.cons ?_ (List.Pairwise.cons hx hxs)
      intro b hb
      rcases List.mem_cons.mp hb with rfl | hb
      · exact hc
      · exact le_trans (hx b hb) hc
    · rw [if_neg hc]
      refine List.Pairwise.cons ?_ (ih hxs)
      intro b hb
      rcases mem_insertByCreatedDesc.mp hb with rfl | hb
      · exact le_of_not_le hc
      · exact hx b hb

theorem orderByCreatedDesc_sorted (orders : List Order) :
    (orderByCreatedDesc orders).Pairwise (fun a b => b.created_at ≤ a.created_at) := by
  induction orders with
  | nil => simp [orderByCreatedDesc]
  | cons x xs ih =>
    rw [orderByCreatedDesc, List.foldr_cons]
    exact pairwise_insertByCreatedDesc ih

theorem mem_orderByCreatedDesc {a : Order} {orders : List Order} :
    a ∈ orderByCreatedDesc orders ↔ a ∈ orders := by
  induction orders with
  | nil => simp [orderByCreatedDesc]
  | cons x xs ih =>
    rw [orderByCreatedDesc, List.foldr_cons, mem_insertByCreatedDesc, List.mem_cons]
    rw [orderByCreatedDesc] at ih
    rw [ih]

/-- C4: the order list is sorted newest-first, a user with the
`webapp.view_order` permission sees every order, and any other user sees
exactly their own orders — never an order owned by someone else. -/
theorem order_list_scoping_sorted (orders : List Order) (u : WebUser) :
    (orderListQueryset orders u).Pairwise (fun a b => b.created_at ≤ a.created_at)
    ∧ (u.canViewAllOrders = true →
        ∀ o, o ∈ orderListQueryset orders u ↔ o ∈ orders)
    ∧ (u.canViewAllOrders = false →
        ∀ o, o ∈ orderListQueryset orders u ↔ o ∈ orders ∧ o.user = some u.id) := by
  refine ⟨?_, ?_, ?_⟩
  · rw [orderListQueryset]
    by_cases h : u.canViewAllOrders <;>
      simp [h, userOrders, orderByCreatedDesc_sorted]
  · intro h o
    rw [orderListQueryset, if_pos h, mem_orderByCreatedDesc]
  · intro h o
    rw [orderListQueryset, if_neg (by simp [h]), userOrders, mem_orderByCreatedDesc,
      List.mem_filter]
    simp

/-- Orders used by the C4 witness: one owned by user 5, one by user 6. -/
def demoOrders : List Order :=
  [⟨1, some 5, "Ada", "L", "555-1234", "ada@example.com", "new", 100⟩,
   ⟨2, some 6, "Brin", "K", "555-9876", "brin@example.com", "new", 200⟩]

/-- Witness for C4 with a privileged and a non-privileged user. -/
theorem order_list_scoping_sorted_witness :
    ((orderListQueryset demoOrders ⟨5, false⟩).Pairwise
      (fun a b => b.created_at ≤ a.created_at))
    ∧ (⟨2, some 6, "Brin", "K", "555-9876", "brin@example.com", "new", 200⟩
        ∈ orderListQueryset demoOrders ⟨5, true⟩
        ↔ (⟨2, some 6, "Brin", "K", "555-9876", "brin@example.com", "new", 200⟩ : Order)
            ∈ demoOrders)
    ∧ (⟨2, some 6, "Brin", "K", "555-9876", "brin@example.com", "new", 200⟩
        ∈ orderListQueryset demoOrders ⟨5, false⟩
        ↔ ((⟨2, some 6, "Brin", "K", "555-9876", "brin@example.com", "new", 200⟩ : Order)
            ∈ demoOrders
          ∧ (⟨2, some 6, "Brin", "K", "555-9876", "brin@example.com", "new", 200⟩
              : Order).user = some 5)) :=
  ⟨(order_list_scoping_sorted demoOrders ⟨5, false⟩).1,
   (order_list_scoping_sorted demoOrders ⟨5, true⟩).2.1 rfl _,
   (order_list_scoping_sorted demoOrders ⟨5, false⟩).2.2 rfl _⟩

/-! ### Product soft-delete (C9) -/

/-- C9: deleting an existing product keeps every catalog row, clears
`in_order` on the rows with the deleted id, and leaves every other field of
every row (and every field of other rows) unchanged. -/
theorem product_delete_soft (catalog : List Product) (pk : Nat) (p : Product)
    (hp : productGet catalog pk = some p) :
    ∃ cat', productDeleteView catalog pk = .ok cat'
      ∧ cat'.length = catalog.length
      ∧ (∀ i, (hi : i < catalog.length) → ∀ hj : i < cat'.length,
          (cat'.get ⟨i, hj⟩).id = (catalog.get ⟨i, hi⟩).id
          ∧ (cat'.get ⟨i, hj⟩).name = (catalog.get ⟨i, hi⟩).name
          ∧ (cat'.get ⟨i, hj⟩).category = (catalog.get ⟨i, hi⟩).category
          ∧ (cat'.get ⟨i, hj⟩).price = (catalog.get ⟨i, hi⟩).price
          ∧ (cat'.get ⟨i, hj⟩).photo = (catalog.get ⟨i, hi⟩).photo
          ∧ (cat'.get ⟨i, hj⟩).in_order
              = (if (catalog.get ⟨i, hi⟩).id = pk then false
                 else (catalog.get ⟨i, hi⟩).in_order))
      ∧ (∀ q ∈ cat', q.id = pk → q.in_order = false) := by
  refine ⟨catalog.map (fun q => if q.id == pk then { q with in_order := false } else q),
    ?_, by simp, ?_, ?_⟩
  · rw [productDeleteView, hp]
  · intro i hi hj
    simp only [List.get_eq_getElem, List.getElem_map]
    by_cases h : catalog[i].id = pk
    · simp [h]
    · simp [h]
  · intro q hq hqid
    rcases List.mem_map.mp hq with ⟨r, _, rfl⟩
    by_cases h : r.id = pk
    · simp [h]
    · rw [if_neg (by simpa using h)] at hqid ⊢
      exact absurd hqid h

/-- Witness for C9: soft-deleting product 7 from the demonstration catalog. -/
theorem product_delete_soft_witness :
    ∃ cat', productDeleteView demoCatalog 7 = .ok cat'
      ∧ cat'.length = demoCatalog.length
      ∧ (∀ q ∈ cat', q.id = 7 → q.in_order = false) := by
  obtain ⟨cat', h1, h2, _, h4⟩ := product_delete_soft demoCatalog 7
    ⟨7, "pizza", "food", 10, "p7.png", true⟩ rfl
  exact ⟨cat', h1, h2, h4⟩

/-! ### Session count caching (C10) -/

theorem basketChangeGet_shape {catalog : List Product} {s s' : Session}
    {act : BasketAction} (h : basketChangeGet catalog s act = .ok s') :
    ∃ ps, s' = ⟨some ps, some ps.length⟩ := by
  cases act with
  | add pk =>
    cases hp : productGet catalog pk with
    | none =>
      rw [basketChangeGet] at h
      simp [hp] at h
    | some p =>
      rw [basketChangeGet] at h
      simp [hp] at h
      exact ⟨_, h.symm⟩
  | remove pk =>
    rw [basketChangeGet] at h
    simp at h
    exact ⟨_, h.symm⟩

theorem basketViewPost_session {db db' : Db} {s s' : Session} {formOk : Bool}
    {o : Order} {out : CheckoutOutcome}
    (h : basketViewPost db s formOk o = (db', s', out)) :
    s' = s ∨ s' = ⟨none, none⟩ := by
  have hcase : (basketViewPost db s formOk o).2.1 = s
      ∨ (basketViewPost db s formOk o).2.1 = ⟨none, none⟩ := by
    rw [basketViewPost]
    cases formOk
    · simp
    · by_cases hemp : (s.products.getD []).length = 0 <;> simp [hemp]
  rw [h] at hcase
  simpa using hcase

/-- C10: in every session state reachable through the basket views from a
fresh session, whenever the cached `products_count` key is present it equals
the length of the `products` reference list (basket changes rewrite both keys
together; checkout removes both together). -/
theorem session_count_invariant {catalog : List Product} {s : Session}
    (h : SessionReachable catalog s) :
    ∀ n, s.products_count = some n → ∃ ps, s.products = some ps ∧ n = ps.length := by
  induction h with
  | init =>
    intro n hn
    exact absurd hn (by simp)
  | change hs hbc ih =>
    obtain ⟨ps, rfl⟩ := basketChangeGet_shape hbc
    intro n hn
    simp only [Option.some.injEq] at hn
    exact ⟨ps, rfl, hn.symm⟩
  | checkout hs hpost ih =>
    rcases basketViewPost_session hpost with rfl | rfl
    · exact ih
    · intro n hn
      exact absurd hn (by simp)

/-- Witness for C10 at a concrete reachable state. -/
theorem session_count_invariant_witness :
    ∃ ps, (⟨some [7], some 1⟩ : Session).products = some ps ∧ 1 = ps.length := by
  have hstep : basketChangeGet demoCatalog ⟨none, none⟩ (.add 7)
      = .ok ⟨some [7], some 1⟩ := rfl
  have hr := SessionReachable.change SessionReachable.init hstep
  exact session_count_invariant hr 1 rfl

end Webapp
